import Mathlib

/-!
Verification development for the Euka-Scrapper locality scraper
(`src/app.py`).  The Python program drives a browser session, scrolls a
listing page, extracts locality titles, deduplicates them into batches,
merges batches into Excel stores, and checkpoints progress to a JSON file.

The definitions below are a shallow embedding of the pure control and data
logic of `app.py`:

* the Sink (`save_and_merge_data`, `update_master_file`): read-modify-write
  merge of rows, sorted by extraction time, deduplicated by natural key
  keeping the last (pandas `sort_values(...).drop_duplicates(keep="last")`);
* the Checkpoint store (`load_progress`, `save_progress`);
* the scroll-and-extract loop of `scrape_locality` (stall counters,
  no-new-data counter, batch flushing, page refresh trigger);
* the page-load retry loop and the job-level retry loop of
  `scrape_locality`;
* the sequential job runner `scrape_multiple_localities_sequential`.

Machine timestamps (`datetime.now().strftime("%Y-%m-%d %H:%M:%S")`, compared
lexicographically, i.e. chronologically) are modelled as `Nat`.  Browser
effects are modelled as oracles: each loop iteration receives the list of
currently rendered title texts and the page height observed after the
scroll.
-/

/-! ## Configuration constants (`CONFIG` in `app.py`) -/

def BATCH_SIZE : Nat := 50
def MAX_RETRIES : Nat := 5
def MAX_ERRORS : Nat := 5
/-- `consecutive_same_height >= 3` threshold in the scroll loop. -/
def SAME_HEIGHT_LIMIT : Nat := 3
/-- `while no_new_data_count < 5` ceiling in the scroll loop. -/
def NO_NEW_DATA_LIMIT : Nat := 5
/-- `if no_new_data_count == 3: driver.refresh()` trigger. -/
def REFRESH_TRIGGER : Nat := 3

/-- Python's `str.lower()`, modelled character-wise over the string's
character data (kernel-computable, unlike `String.toLower`). -/
def pyLower (s : String) : String := ⟨s.data.map Char.toLower⟩

/-- An ASCII whitespace character, as stripped by Python's `str.strip()`. -/
def isSpaceChar (c : Char) : Bool :=
  c == ' ' || c == '\t' || c == '\n' || c == '\r'

/-- Python's `str.strip()`: drop whitespace from both ends (modelled over
the character data so that it is kernel-computable). -/
def pyStrip (s : String) : String :=
  ⟨((s.data.dropWhile isSpaceChar).reverse.dropWhile isSpaceChar).reverse⟩

/-- `CONFIG['CITY_THRESHOLDS']` lookup performed by
`get_min_localities_threshold`: `CITY_THRESHOLDS.get(city.lower(), default)`. -/
def get_min_localities_threshold (city_name : String) : Nat :=
  let k := pyLower city_name
  if k = "mumbai" then 3000
  else if k = "delhi" then 2500
  else if k = "bangalore" then 2000
  else 500

/-! ## Checkpoint store (`load_progress` / `save_progress`) -/

/-- The persisted progress record.  `inprogress` models the JSON field
`partial_data`: `none` when the dict is empty, otherwise the in-progress url
together with the list of seen titles. -/
structure Progress where
  completed_urls : List String
  inprogress : Option (String × List String)
deriving DecidableEq, Repr

/-- The empty checkpoint `{'completed_urls': [], 'partial_data': {}}`. -/
def emptyProgress : Progress := ⟨[], none⟩

/-- What the progress file on disk may look like when `load_progress` runs:
absent, present but unreadable/corrupt (`json.load` raises), or readable. -/
inductive ProgressFile where
  | missing
  | unreadable
  | stored (p : Progress)

/-- `load_progress()`: returns the parsed file when readable; on a missing
file the `os.path.exists` guard skips the read; on an unreadable file the
`except` clause logs a warning.  Both fall through to the final
`return {'completed_urls': [], 'partial_data': {}}`. -/
def load_progress : ProgressFile → Progress
  | .missing => emptyProgress
  | .unreadable => emptyProgress
  | .stored p => p

/-- `save_progress(completed_urls, current_url, seen_titles)`: the
`partial_data` field is populated only when both `current_url` and
`seen_titles` are truthy (non-`None` and non-empty). -/
def save_progress (completed_urls : List String) (current_url : Option String)
    (seen_titles : List String) : Progress :=
  { completed_urls := completed_urls
    inprogress :=
      match current_url with
      | some u => if seen_titles ≠ [] then some (u, seen_titles) else none
      | none => none }

/-! ## Sink: merge with dedup-keep-latest

`save_and_merge_data` and `update_master_file` both do
`pd.concat([existing, new]).sort_values('Extraction Time')
   .drop_duplicates(subset=key, keep='last')`.
The sort key is the extraction time; the dedup key is the locality name for
the per-city file and the (name, city) pair for the master file.  We model
rows generically: `key` extracts the dedup key, `rtime` the timestamp. -/

section Sink

variable {α K : Type} [DecidableEq α] [DecidableEq K]

/-- `drop_duplicates(keep='last')`: a row survives iff its key does not occur
again later in the list; surviving rows keep their relative order. -/
def ddKeepLast (key : α → K) : List α → List α
  | [] => []
  | e :: l => if key e ∈ l.map key then ddKeepLast key l else e :: ddKeepLast key l

/-- Stable insertion of a row into a time-sorted list (the row goes before
any strictly later row and after earlier-or-equal rows seen so far). -/
def insertT (rtime : α → Nat) (a : α) : List α → List α
  | [] => [a]
  | b :: l => if rtime a ≤ rtime b then a :: b :: l else b :: insertT rtime a l

/-- Stable sort by timestamp, modelling `sort_values('Extraction Time')`.
(The final per-key row kept by the merge does not depend on how the sort
orders rows of equal time and different key.) -/
def sortT (rtime : α → Nat) : List α → List α
  | [] => []
  | a :: l => insertT rtime a (sortT rtime l)

/-- The common merge skeleton: concatenate existing rows with new rows, sort
by time, dedup by key keeping the last. -/
def mergeRows (key : α → K) (rtime : α → Nat) (existing newRows : List α) : List α :=
  ddKeepLast key (sortT rtime (existing ++ newRows))

end Sink

/-- A durable-store row: (locality name, city, extraction time), the three
columns `['Locality Name', 'City', 'Extraction Time']`. -/
abbrev Row := String × String × Nat

/-- Natural key of a row for the per-city merged file
(`subset=['Locality Name']`). -/
def rowName (e : Row) : String := e.1

/-- Key of a row for the master file (`subset=['Locality Name','City']`). -/
def rowNameCity (e : Row) : String × String := (e.1, e.2.1)

/-- Extraction timestamp of a row. -/
def rowTime (e : Row) : Nat := e.2.2

/-- `save_and_merge_data(data, folder, city)` restricted to its durable
effect on the per-city merged file: stamp every batch element with the city
and the current time, append to the existing rows, sort by time, dedup by
locality name keeping the latest. -/
def save_and_merge_data (existing : List Row) (data : List String)
    (city_name : String) (now : Nat) : List Row :=
  mergeRows rowName rowTime existing (data.map fun x => (x, city_name, now))

/-- `update_master_file(data, city)`: same merge against the master file,
dedup key = (locality name, city). -/
def update_master_file (existing : List Row) (data : List String)
    (city_name : String) (now : Nat) : List Row :=
  mergeRows rowNameCity rowTime existing (data.map fun x => (x, city_name, now))

/-! ## The scroll-and-extract loop of `scrape_locality`

Loop variables (lines 337-341, 366-368): `seen_titles` (a set, modelled as a
duplicate-free list grown by appending), `batch_data`, `scroll_count`,
`consecutive_same_height`, `no_new_data_count`, `last_height`.  Each
iteration of `while no_new_data_count < 5` receives from the browser the
currently rendered title texts and the page height after the scroll. -/

/-- Mutable state of one `scrape_locality` scroll loop. -/
structure ScrollState where
  seen : List String
  batch : List String
  /-- `consecutive_same_height` -/
  csh : Nat
  /-- `no_new_data_count` -/
  nndc : Nat
  /-- `last_height` -/
  lastHeight : Nat
deriving DecidableEq, Repr

/-- What the browser session yields during one loop iteration: the text of
every element currently matching `loc-card__title`, and
`document.body.scrollHeight` observed after the scroll step. -/
structure StepInput where
  titles : List String
  newHeight : Nat
deriving DecidableEq, Repr

/-- The `for title in titles` body: trim the text; when non-empty and not in
the seen set, add it to the seen set and append it to the current batch. -/
def addTitles (seen batch : List String) : List String → List String × List String
  | [] => (seen, batch)
  | t :: ts =>
    let s := pyStrip t
    if s ≠ "" ∧ s ∉ seen then addTitles (seen ++ [s]) (batch ++ [s]) ts
    else addTitles seen batch ts

/-- Result of one iteration of the scroll loop: the updated state, the batch
flushed to the Sink this iteration (empty or a singleton), and whether the
iteration performed the `driver.refresh()` step. -/
structure StepOutput where
  state : ScrollState
  flushed : List (List String)
  refreshed : Bool
deriving DecidableEq, Repr

/-- One iteration of the `while no_new_data_count < 5` loop body:
extract titles into seen/batch; flush the batch to the Sink once it reaches
`BATCH_SIZE`; scroll; then update the stall counters against the newly read
height (`consecutive_same_height` grows on an unchanged height and resets to
0 otherwise; `no_new_data_count` grows only when the height is unchanged,
`consecutive_same_height` has reached 3 and the iteration found no new
title; it resets to 0 on a height change); finally refresh the page when
`no_new_data_count == 3`. -/
def scrollStep (st : ScrollState) (inp : StepInput) : StepOutput :=
  let p := addTitles st.seen st.batch inp.titles
  let seen' := p.1
  let batchGrown := p.2
  let flushed := if BATCH_SIZE ≤ batchGrown.length then [batchGrown] else []
  let batch' := if BATCH_SIZE ≤ batchGrown.length then [] else batchGrown
  let csh' := if inp.newHeight = st.lastHeight then st.csh + 1 else 0
  let nndc' :=
    if inp.newHeight = st.lastHeight then
      if SAME_HEIGHT_LIMIT ≤ st.csh + 1 ∧ seen'.length = st.seen.length then
        st.nndc + 1
      else st.nndc
    else 0
  { state := { seen := seen', batch := batch', csh := csh', nndc := nndc',
               lastHeight := inp.newHeight }
    flushed := flushed
    refreshed := nndc' = REFRESH_TRIGGER }

/-- The `while no_new_data_count < 5` loop over a finite input trace: runs
one `scrollStep` per input while the guard holds, collecting all flushed
batches in order. -/
def runScroll (st : ScrollState) : List StepInput → ScrollState × List (List String)
  | [] => (st, [])
  | i :: is =>
    if NO_NEW_DATA_LIMIT ≤ st.nndc then (st, [])
    else
      let o := scrollStep st i
      let r := runScroll o.state is
      (r.1, o.flushed ++ r.2)

/-- Loop-variable initialisation of `scrape_locality` (lines 337-341 and
366-368): `seen_titles = set(resume_data) if resume_data else set()`,
`batch_data = []`, the counters start at 0, and `last_height` is read from
the page before the loop. -/
def initState (resume_data : List String) (h0 : Nat) : ScrollState :=
  { seen := resume_data.dedup, batch := [], csh := 0, nndc := 0, lastHeight := h0 }

/-- Outcome of one full attempt of `scrape_locality`'s try-block. -/
inductive JobOutcome where
  /-- `raise Exception("Insufficient localities found for ...")` -/
  | insufficient (found : Nat)
  /-- `return len(seen_titles)` -/
  | success (count : Nat)
  /-- an unhandled session fault inside the loop (Timeout, WebDriver, ...) -/
  | sessionFault
deriving DecidableEq, Repr

/-- The code after the scroll loop exits (lines 421-431): flush the
remaining batch if non-empty, then raise "insufficient localities" when the
seen count is below the city threshold, else return the seen count. -/
def finishJob (st : ScrollState) (min_expected : Nat) :
    List (List String) × JobOutcome :=
  let finalFlush := if st.batch ≠ [] then [st.batch] else []
  if st.seen.length < min_expected then
    (finalFlush, .insufficient st.seen.length)
  else
    (finalFlush, .success st.seen.length)

/-- All batches a completed (un-faulted) attempt hands to the Sink: the
in-loop flushes followed by the final flush of the remaining batch. -/
def attemptFlushes (st : ScrollState) (tr : List StepInput) (min_expected : Nat) :
    List (List String) :=
  (runScroll st tr).2 ++ (finishJob (runScroll st tr).1 min_expected).1

/-- Outcome of a completed attempt. -/
def attemptOutcome (st : ScrollState) (tr : List StepInput) (min_expected : Nat) :
    JobOutcome :=
  (finishJob (runScroll st tr).1 min_expected).2

/-- State carried into the next attempt of the `while error_count <
MAX_ERRORS` loop after a fault: `seen_titles`, `batch_data` and
`consecutive_same_height` are initialised outside that loop and survive the
retry; `no_new_data_count` is re-initialised to 0 inside the attempt and
`last_height` is re-read from the freshly loaded page. -/
def retryInit (st : ScrollState) (h0 : Nat) : ScrollState :=
  { seen := st.seen, batch := st.batch, csh := st.csh, nndc := 0, lastHeight := h0 }

/-! ## The page-load retry loop of `scrape_locality` (lines 353-364)

`retry_count` is initialised once, at line 332, before the job-level
`while error_count < MAX_ERRORS` loop, and is never reset afterwards.
The inner loop is

    while retry_count < MAX_RETRIES:
        try: driver.get(url); WebDriverWait(...); break
        except TimeoutException:
            retry_count += 1
            if retry_count == MAX_RETRIES: raise

`outs n` tells whether the n-th navigation of this attempt loads within the
timeout.  The result is (final `retry_count`, number of `driver.get`
navigations performed, `true` iff the loop was left without raising).
Since `retry_count` strictly increases on every non-exiting iteration, the
loop runs at most `MAX_RETRIES - retry_count` iterations; that difference is
the structural fuel. -/

def pageLoadGo : Nat → Nat → (Nat → Bool) → Nat → Nat × Nat × Bool
  | 0, rc, _, navs => (rc, navs, true)
  | fuel + 1, rc, outs, navs =>
    if MAX_RETRIES ≤ rc then (rc, navs, true)
    else if outs navs then (rc, navs + 1, true)
    else if rc + 1 = MAX_RETRIES then (rc + 1, navs + 1, false)
    else pageLoadGo fuel (rc + 1) outs (navs + 1)

/-- The page-load retry loop, entered with the current `retry_count`. -/
def pageLoadLoop (rc : Nat) (outs : Nat → Bool) : Nat × Nat × Bool :=
  pageLoadGo (MAX_RETRIES - rc) rc outs 0

/-- Oracle for one attempt of the job-level retry loop: the page-load
outcomes of this attempt's navigations, and whether the subsequent
scroll/extract phase raises an unhandled fault. -/
structure AttemptSpec where
  loadResults : Nat → Bool
  scrollFaults : Bool

/-- The job-level `while error_count < MAX_ERRORS` loop, restricted to how it
threads `retry_count` through the page-load phase of successive attempts.
Returns the list of navigation counts of each attempt made, and the final
`retry_count`.  An attempt whose page load raises, or whose scroll phase
faults, is followed by the next attempt (the `except` branch); otherwise the
job returns. -/
def runAttempts (rc : Nat) : List AttemptSpec → List Nat × Nat
  | [] => ([], rc)
  | a :: rest =>
    if (pageLoadLoop rc a.loadResults).2.2 = false ∨ a.scrollFaults then
      ((pageLoadLoop rc a.loadResults).2.1 ::
          (runAttempts (pageLoadLoop rc a.loadResults).1 rest).1,
        (runAttempts (pageLoadLoop rc a.loadResults).1 rest).2)
    else ([(pageLoadLoop rc a.loadResults).2.1], (pageLoadLoop rc a.loadResults).1)

/-! ## The sequential job runner (`scrape_multiple_localities_sequential`)

Per url: skip when the url is in the in-memory completed set (loaded from
the checkpoint); else run `scrape_locality` (acquiring sessions and invoking
the extractor), during which each batch flush calls
`save_progress([], url, seen_titles)`; on success add the url to the
completed set and call `save_progress(list(completed_urls))`. -/

/-- Oracle describing what one `scrape_locality` call does: how many batch
flushes it performs (each persisting a checkpoint with an empty
`completed_urls`), the `seen_titles` value at those saves, and whether the
job eventually succeeds (vs. exhausting `MAX_ERRORS` with an exception). -/
structure JobBeh where
  flushes : Nat
  seenAtSave : List String
  succeeds : Bool

/-- Runner state: the in-memory completed set (as a duplicate-free list),
the urls for which `scrape_locality` was invoked (i.e. at least one browser
session was acquired and the extractor ran), the chronological log of every
`save_progress` call (tagged `true` for the per-job completion save,
`false` for mid-job batch saves), and the failed urls. -/
structure SeqState where
  completed : List String
  executed : List String
  saves : List (Bool × Progress)
  failed : List String
deriving Repr

/-- Processing of a single url in the `for index, url in enumerate(urls)`
loop.  The mid-job batch saves (each persisting an empty `completed_urls`)
happen during the `scrape_locality` call, hence before the per-job
completion save. -/
def processUrl (beh : String → JobBeh) (st : SeqState) (url : String) : SeqState :=
  if url ∈ st.completed then st
  else if (beh url).succeeds then
    { completed := st.completed ++ [url]
      executed := st.executed ++ [url]
      saves := st.saves ++
        List.replicate (beh url).flushes
          (false, save_progress [] (some url) (beh url).seenAtSave) ++
        [(true, save_progress (st.completed ++ [url]) none [])]
      failed := st.failed }
  else
    { completed := st.completed
      executed := st.executed ++ [url]
      saves := st.saves ++
        List.replicate (beh url).flushes
          (false, save_progress [] (some url) (beh url).seenAtSave)
      failed := st.failed ++ [url] }

/-- `scrape_multiple_localities_sequential(urls)` with the loaded checkpoint
`initial`: `completed_urls = set(progress.get('completed_urls', []))`, then
the sequential url loop. -/
def runSequential (urls : List String) (beh : String → JobBeh)
    (initial : Progress) : SeqState :=
  urls.foldl (processUrl beh)
    { completed := initial.completed_urls.dedup, executed := [], saves := [],
      failed := [] }

/-! # Lemmas about the Sink merge -/

section SinkLemmas

variable {α K : Type} [DecidableEq α] [DecidableEq K]
variable {key : α → K} {rtime : α → Nat}

theorem mem_of_mem_ddKeepLast {l : List α} {a : α} :
    a ∈ ddKeepLast key l → a ∈ l := by
  induction l with
  | nil => simp [ddKeepLast]
  | cons e l ih =>
    intro h
    rw [ddKeepLast] at h
    split at h
    · exact List.mem_cons_of_mem _ (ih h)
    · rcases List.mem_cons.1 h with rfl | h
      · exact List.mem_cons_self _ _
      · exact List.mem_cons_of_mem _ (ih h)

theorem keys_ddKeepLast_sub {l : List α} {k : K}
    (h : k ∈ (ddKeepLast key l).map key) : k ∈ l.map key := by
  rcases List.mem_map.1 h with ⟨a, ha, rfl⟩
  exact List.mem_map.2 ⟨a, mem_of_mem_ddKeepLast ha, rfl⟩

theorem keys_ddKeepLast_nodup (l : List α) :
    ((ddKeepLast key l).map key).Nodup := by
  induction l with
  | nil => simp [ddKeepLast]
  | cons e l ih =>
    rw [ddKeepLast]
    split
    · exact ih
    · rename_i hni
      rw [List.map_cons, List.nodup_cons]
      exact ⟨fun hmem => hni (keys_ddKeepLast_sub hmem), ih⟩

theorem mem_keys_ddKeepLast {l : List α} {k : K} :
    k ∈ (ddKeepLast key l).map key ↔ k ∈ l.map key := by
  constructor
  · exact keys_ddKeepLast_sub
  · induction l with
    | nil => simp
    | cons e l ih =>
      intro h
      rw [ddKeepLast]
      split
      · rename_i hin
        rcases List.mem_map.1 h with ⟨a, ha, rfl⟩
        rcases List.mem_cons.1 ha with rfl | ha
        · exact ih hin
        · exact ih (List.mem_map.2 ⟨a, ha, rfl⟩)
      · rename_i hni
        rcases List.mem_map.1 h with ⟨a, ha, rfl⟩
        rcases List.mem_cons.1 ha with rfl | ha
        · exact List.mem_map.2 ⟨a, List.mem_cons_self _ _, rfl⟩
        · exact List.mem_cons_of_mem _ (ih (List.mem_map.2 ⟨a, ha, rfl⟩))

/-- In a time-sorted list, the row that `ddKeepLast` keeps for a key carries
the maximal timestamp of that key. -/
theorem ddKeepLast_time_max {l : List α} {a : α} :
    l.Pairwise (fun a b => rtime a ≤ rtime b) → a ∈ ddKeepLast key l →
    ∀ b ∈ l, key b = key a → rtime b ≤ rtime a := by
  induction l with
  | nil => simp
  | cons e l ih =>
    intro hs ha b hb hkb
    rw [List.pairwise_cons] at hs
    rw [ddKeepLast] at ha
    split at ha
    · rcases List.mem_cons.1 hb with rfl | hb
      · exact hs.1 a (mem_of_mem_ddKeepLast ha)
      · exact ih hs.2 ha b hb hkb
    · rename_i hni
      rw [List.mem_cons] at ha
      rcases ha with rfl | ha
      · rcases List.mem_cons.1 hb with rfl | hb
        · exact le_refl _
        · exact absurd (List.mem_map.2 ⟨b, hb, hkb⟩) hni
      · rcases List.mem_cons.1 hb with rfl | hb
        · exact hs.1 a (mem_of_mem_ddKeepLast ha)
        · exact ih hs.2 ha b hb hkb

theorem insertT_perm (a : α) (l : List α) :
    (insertT rtime a l).Perm (a :: l) := by
  induction l with
  | nil => simp [insertT]
  | cons b l ih =>
    rw [insertT]
    split
    · exact List.Perm.refl _
    · exact (List.Perm.cons b ih).trans (List.Perm.swap a b l)

theorem sortT_perm (l : List α) : (sortT rtime l).Perm l := by
  induction l with
  | nil => simp [sortT]
  | cons a l ih => exact (insertT_perm a _).trans (ih.cons a)

theorem insertT_sorted {l : List α}
    (hs : l.Pairwise (fun x y => rtime x ≤ rtime y)) (a : α) :
    (insertT rtime a l).Pairwise (fun x y => rtime x ≤ rtime y) := by
  induction l with
  | nil => simp [insertT]
  | cons b l ih =>
    rw [List.pairwise_cons] at hs
    rw [insertT]
    split
    · rename_i hab
      rw [List.pairwise_cons]
      refine ⟨?_, List.pairwise_cons.2 hs⟩
      intro c hc
      rcases List.mem_cons.1 hc with rfl | hc
      · exact hab
      · exact le_trans hab (hs.1 c hc)
    · rename_i hab
      rw [List.pairwise_cons]
      refine ⟨?_, ih hs.2⟩
      intro c hc
      rcases List.mem_cons.1 ((insertT_perm a l).mem_iff.1 hc) with rfl | hc
      · exact le_of_not_le hab
      · exact hs.1 c hc

theorem sortT_sorted (l : List α) :
    (sortT rtime l).Pairwise (fun x y => rtime x ≤ rtime y) := by
  induction l with
  | nil => simp [sortT]
  | cons a l ih => exact insertT_sorted ih a

theorem mem_of_mem_mergeRows {s new : List α} {a : α}
    (h : a ∈ mergeRows key rtime s new) : a ∈ s ∨ a ∈ new := by
  have h2 : a ∈ s ++ new :=
    (sortT_perm (s ++ new)).mem_iff.1 (mem_of_mem_ddKeepLast h)
  exact List.mem_append.1 h2

theorem keys_mergeRows_nodup (s new : List α) :
    ((mergeRows key rtime s new).map key).Nodup :=
  keys_ddKeepLast_nodup _

theorem mem_keys_mergeRows {s new : List α} {k : K} :
    k ∈ (mergeRows key rtime s new).map key ↔
      k ∈ s.map key ∨ k ∈ new.map key := by
  rw [mergeRows, mem_keys_ddKeepLast]
  constructor
  · intro h
    rcases List.mem_map.1 h with ⟨a, ha, rfl⟩
    rcases List.mem_append.1 ((sortT_perm _).mem_iff.1 ha) with ha | ha
    · exact Or.inl (List.mem_map.2 ⟨a, ha, rfl⟩)
    · exact Or.inr (List.mem_map.2 ⟨a, ha, rfl⟩)
  · intro h
    rcases h with h | h <;> rcases List.mem_map.1 h with ⟨a, ha, rfl⟩
    · exact List.mem_map.2 ⟨a, (sortT_perm _).mem_iff.2
        (List.mem_append.2 (Or.inl ha)), rfl⟩
    · exact List.mem_map.2 ⟨a, (sortT_perm _).mem_iff.2
        (List.mem_append.2 (Or.inr ha)), rfl⟩

/-- The merged store keeps, per key, a row with the latest timestamp among
all existing and new rows with that key. -/
theorem mergeRows_time_max {s new : List α} {a : α}
    (ha : a ∈ mergeRows key rtime s new) :
    ∀ b, b ∈ s ∨ b ∈ new → key b = key a → rtime b ≤ rtime a := by
  intro b hb hkb
  exact ddKeepLast_time_max (sortT_sorted _) ha b
    ((sortT_perm _).mem_iff.2 (List.mem_append.2 hb)) hkb

/-- Re-merging the same new rows into an already-merged store changes
nothing (up to row order), provided rows in the pool are determined by their
key and timestamp. -/
theorem mergeRows_idem {s new : List α}
    (hdet : ∀ a, (a ∈ s ∨ a ∈ new) → ∀ b, (b ∈ s ∨ b ∈ new) →
      key a = key b → rtime a = rtime b → a = b) :
    (mergeRows key rtime (mergeRows key rtime s new) new).Perm
      (mergeRows key rtime s new) := by
  set s' := mergeRows key rtime s new with hs'
  set m := mergeRows key rtime s' new with hm
  have hF1 : ∀ a ∈ s', a ∈ s ∨ a ∈ new := fun a ha => mem_of_mem_mergeRows ha
  have hmPool : ∀ a ∈ m, a ∈ s ∨ a ∈ new := by
    intro a ha
    rcases mem_of_mem_mergeRows ha with h | h
    · exact hF1 a h
    · exact Or.inr h
  have hmem : ∀ a, a ∈ m ↔ a ∈ s' := by
    intro a
    constructor
    · intro ham
      rcases mem_of_mem_mergeRows ham with h | h
      · exact h
      · -- a came from the new rows: the already-merged store holds a row r
        -- with the same key; both timestamps bound each other, so r = a.
        have hka : key a ∈ s'.map key :=
          mem_keys_mergeRows.2 (Or.inr (List.mem_map.2 ⟨a, h, rfl⟩))
        rcases List.mem_map.1 hka with ⟨r, hr, hkr⟩
        have h1 : rtime r ≤ rtime a :=
          mergeRows_time_max ham r (Or.inl hr) hkr
        have h2 : rtime a ≤ rtime r :=
          mergeRows_time_max hr a (Or.inr h) hkr.symm
        have : r = a :=
          hdet r (hF1 r hr) a (Or.inr h) hkr (le_antisymm h1 h2)
        exact this ▸ hr
    · intro has
      have hka : key a ∈ m.map key := by
        rw [hm, mem_keys_mergeRows]
        exact Or.inl (List.mem_map.2 ⟨a, has, rfl⟩)
      rcases List.mem_map.1 hka with ⟨f, hf, hkf⟩
      have h1 : rtime a ≤ rtime f :=
        mergeRows_time_max hf a (Or.inl has) hkf.symm
      have h2 : rtime f ≤ rtime a := by
        rcases mem_of_mem_mergeRows hf with hfs | hfn
        · exact mergeRows_time_max has f (hF1 f hfs) hkf
        · exact mergeRows_time_max has f (Or.inr hfn) hkf
      have : f = a :=
        hdet f (hmPool f hf) a (hF1 a has) hkf (le_antisymm h2 h1)
      exact this ▸ hf
  have hnm : m.Nodup := (keys_mergeRows_nodup s' new).of_map
  have hns : s'.Nodup := (keys_mergeRows_nodup s new).of_map
  exact (List.perm_ext_iff_of_nodup hnm hns).2 hmem

end SinkLemmas

/-- C1: after every merge (`save_and_merge_data` into the per-city file,
`update_master_file` into the master file) the durable store has exactly one
row per distinct natural key; the kept row carries the most recent timestamp
among duplicates (in particular at least the batch timestamp for batch
keys); re-merging the same batch with the same timestamp is idempotent (up
to row order; for the per-city file, whose rows all carry that city); and
merging batch ["Alpha","Beta"] at time 1 and then ["Beta","Gamma"] at the
later time 2 into an empty store leaves exactly
{Alpha@1, Beta@2, Gamma@2}. -/
theorem C1_sink_merge_dedupes_latest :
    (∀ (s : List Row) (data : List String) (city : String) (t : Nat),
      ((save_and_merge_data s data city t).map rowName).Nodup ∧
      (∀ k, k ∈ (save_and_merge_data s data city t).map rowName ↔
        k ∈ s.map rowName ∨ k ∈ data) ∧
      (∀ e ∈ save_and_merge_data s data city t,
        (∀ b ∈ s, rowName b = rowName e → rowTime b ≤ rowTime e) ∧
        (rowName e ∈ data → t ≤ rowTime e))) ∧
    (∀ (s : List Row) (data : List String) (city : String) (t : Nat),
      (∀ b ∈ s, b.2.1 = city) →
      (save_and_merge_data (save_and_merge_data s data city t) data city t).Perm
        (save_and_merge_data s data city t)) ∧
    (∀ (s : List Row) (data : List String) (city : String) (t : Nat),
      ((update_master_file s data city t).map rowNameCity).Nodup) ∧
    (∀ (s : List Row) (data : List String) (city : String) (t : Nat),
      (update_master_file (update_master_file s data city t) data city t).Perm
        (update_master_file s data city t)) ∧
    save_and_merge_data (save_and_merge_data [] ["Alpha", "Beta"] ("gurgaon") 1)
        ["Beta", "Gamma"] ("gurgaon") 2 =
      [("Alpha", "gurgaon", 1), ("Beta", "gurgaon", 2), ("Gamma", "gurgaon", 2)] := by
  refine ⟨?_, ?_, ?_, ?_, by decide⟩
  · intro s data city t
    refine ⟨keys_mergeRows_nodup s _, ?_, ?_⟩
    · intro k
      rw [save_and_merge_data, mem_keys_mergeRows]
      simp [rowName]
    · intro e he
      constructor
      · intro b hb hkb
        exact mergeRows_time_max he b (Or.inl hb) hkb
      · intro hed
        have hmem : (rowName e, city, t) ∈ data.map (fun x => (x, city, t)) :=
          List.mem_map.2 ⟨rowName e, hed, rfl⟩
        have := mergeRows_time_max he (rowName e, city, t) (Or.inr hmem) rfl
        exact this
  · intro s data city t hcity
    apply mergeRows_idem
    intro a hma b hmb hk ht
    have hca : a.2.1 = city := by
      rcases hma with h | h
      · exact hcity a h
      · rcases List.mem_map.1 h with ⟨x, _, rfl⟩; rfl
    have hcb : b.2.1 = city := by
      rcases hmb with h | h
      · exact hcity b h
      · rcases List.mem_map.1 h with ⟨x, _, rfl⟩; rfl
    have h1 : a.1 = b.1 := hk
    have h3 : a.2.2 = b.2.2 := ht
    calc a = (a.1, a.2.1, a.2.2) := rfl
    _ = (b.1, b.2.1, b.2.2) := by rw [h1, h3, hca, hcb]
    _ = b := rfl
  · intro s data city t
    exact keys_mergeRows_nodup s _
  · intro s data city t
    apply mergeRows_idem
    intro a _ b _ hk ht
    have hk' : (a.1, a.2.1) = (b.1, b.2.1) := hk
    injection hk' with h1 h2
    have h3 : a.2.2 = b.2.2 := ht
    calc a = (a.1, a.2.1, a.2.2) := rfl
    _ = (b.1, b.2.1, b.2.2) := by rw [h1, h2, h3]
    _ = b := rfl

/-- Witness for C1 at concrete inputs, discharging the per-city-store
hypothesis of the idempotence part. -/
theorem C1_sink_merge_dedupes_latest_witness :
    ((save_and_merge_data [("X", "c", 3)] ["Y"] ("c") 5).map rowName).Nodup ∧
    (save_and_merge_data (save_and_merge_data [("X", "c", 3)] ["Y"] ("c") 5)
        ["Y"] ("c") 5).Perm (save_and_merge_data [("X", "c", 3)] ["Y"] ("c") 5) :=
  ⟨(C1_sink_merge_dedupes_latest.1 [("X", "c", 3)] ["Y"] ("c") 5).1,
    C1_sink_merge_dedupes_latest.2.1 [("X", "c", 3)] ["Y"] ("c") 5 (by decide)⟩

/-! # Lemmas about the scroll loop -/

theorem addTitles_seen_mono (ts : List String) :
    ∀ seen batch, ∀ x ∈ seen, x ∈ (addTitles seen batch ts).1 := by
  induction ts with
  | nil => intro seen batch x hx; simpa [addTitles] using hx
  | cons t ts ih =>
    intro seen batch x hx
    rw [addTitles]
    split
    · exact ih _ _ x (List.mem_append.2 (Or.inl hx))
    · exact ih _ _ x hx

theorem addTitles_seen_len (ts : List String) :
    ∀ seen batch, seen.length ≤ ((addTitles seen batch ts).1).length := by
  induction ts with
  | nil => intro seen batch; simp [addTitles]
  | cons t ts ih =>
    intro seen batch
    rw [addTitles]
    split
    · calc seen.length ≤ (seen ++ [pyStrip t]).length := by simp
      _ ≤ _ := ih _ _
    · exact ih _ _

theorem addTitles_seen_nodup (ts : List String) :
    ∀ seen batch, seen.Nodup → ((addTitles seen batch ts).1).Nodup := by
  induction ts with
  | nil => intro seen batch h; simpa [addTitles] using h
  | cons t ts ih =>
    intro seen batch h
    rw [addTitles]
    split
    · rename_i hc
      refine ih _ _ ?_
      simp [List.nodup_append, h, hc.2]
    · exact ih _ _ h

theorem addTitles_batch_mono (ts : List String) :
    ∀ seen batch, ∀ x ∈ batch, x ∈ (addTitles seen batch ts).2 := by
  induction ts with
  | nil => intro seen batch x hx; simpa [addTitles] using hx
  | cons t ts ih =>
    intro seen batch x hx
    rw [addTitles]
    split
    · exact ih _ _ x (List.mem_append.2 (Or.inl hx))
    · exact ih _ _ x hx

/-- Everything in the grown batch was either queued before or was not yet in
the seen set (the membership check guards every append). -/
theorem addTitles_batch_new (ts : List String) :
    ∀ seen batch x, x ∈ (addTitles seen batch ts).2 → x ∈ batch ∨ x ∉ seen := by
  induction ts with
  | nil => intro seen batch x hx; exact Or.inl (by simpa [addTitles] using hx)
  | cons t ts ih =>
    intro seen batch x hx
    rw [addTitles] at hx
    split at hx
    · rename_i hc
      rcases ih _ _ x hx with h | h
      · rcases List.mem_append.1 h with h | h
        · exact Or.inl h
        · rw [List.mem_singleton] at h
          exact Or.inr (h ▸ hc.2)
      · exact Or.inr fun hs => h (List.mem_append.2 (Or.inl hs))
    · exact ih _ _ x hx

theorem scrollStep_seen (st : ScrollState) (i : StepInput) :
    (scrollStep st i).state.seen = (addTitles st.seen st.batch i.titles).1 := rfl

theorem scrollStep_height (st : ScrollState) (i : StepInput) :
    (scrollStep st i).state.lastHeight = i.newHeight := rfl

theorem scrollStep_csh (st : ScrollState) (i : StepInput) :
    (scrollStep st i).state.csh =
      if i.newHeight = st.lastHeight then st.csh + 1 else 0 := rfl

theorem scrollStep_nndc (st : ScrollState) (i : StepInput) :
    (scrollStep st i).state.nndc =
      if i.newHeight = st.lastHeight then
        if SAME_HEIGHT_LIMIT ≤ st.csh + 1 ∧
            ((addTitles st.seen st.batch i.titles).1).length = st.seen.length then
          st.nndc + 1
        else st.nndc
      else 0 := rfl

/-- Anything in the batch when a step starts is, after the step, either in
the flushed output of that step or still queued in the batch. -/
theorem scrollStep_batch_conserve (st : ScrollState) (i : StepInput) :
    ∀ x ∈ st.batch,
      x ∈ ((scrollStep st i).flushed).flatten ∨ x ∈ (scrollStep st i).state.batch := by
  intro x hx
  have hg : x ∈ (addTitles st.seen st.batch i.titles).2 :=
    addTitles_batch_mono _ _ _ x hx
  show x ∈ (if BATCH_SIZE ≤ (addTitles st.seen st.batch i.titles).2.length then
      [(addTitles st.seen st.batch i.titles).2] else []).flatten ∨
    x ∈ (if BATCH_SIZE ≤ (addTitles st.seen st.batch i.titles).2.length then
      ([] : List String) else (addTitles st.seen st.batch i.titles).2)
  split
  · exact Or.inl (by simpa using hg)
  · exact Or.inr hg

theorem runScroll_seen_mono (tr : List StepInput) :
    ∀ st : ScrollState, ∀ x ∈ st.seen, x ∈ (runScroll st tr).1.seen := by
  induction tr with
  | nil => intro st x hx; simpa [runScroll] using hx
  | cons i is ih =>
    intro st x hx
    rw [runScroll]
    split
    · exact hx
    · exact ih _ x (by rw [scrollStep_seen]; exact addTitles_seen_mono _ _ _ x hx)

theorem runScroll_seen_len (tr : List StepInput) :
    ∀ st : ScrollState, st.seen.length ≤ ((runScroll st tr).1.seen).length := by
  induction tr with
  | nil => intro st; simp [runScroll]
  | cons i is ih =>
    intro st
    rw [runScroll]
    split
    · exact le_refl _
    · have h1 : st.seen.length ≤ ((scrollStep st i).state.seen).length := by
        rw [scrollStep_seen]; exact addTitles_seen_len _ _ _
      exact le_trans h1 (ih _)

theorem runScroll_seen_nodup (tr : List StepInput) :
    ∀ st : ScrollState, st.seen.Nodup → ((runScroll st tr).1.seen).Nodup := by
  induction tr with
  | nil => intro st h; simpa [runScroll] using h
  | cons i is ih =>
    intro st h
    rw [runScroll]
    split
    · exact h
    · exact ih _ (by rw [scrollStep_seen]; exact addTitles_seen_nodup _ _ _ h)

/-- Batches flushed by a step, and the batch it leaves queued, contain only
records that were queued before the step or not yet seen before it. -/
theorem scrollStep_batch_src (st : ScrollState) (i : StepInput) :
    (∀ b ∈ (scrollStep st i).flushed, ∀ x ∈ b, x ∈ st.batch ∨ x ∉ st.seen) ∧
    (∀ x ∈ (scrollStep st i).state.batch, x ∈ st.batch ∨ x ∉ st.seen) := by
  constructor
  · intro b hb x hx
    have hbe : b = (addTitles st.seen st.batch i.titles).2 := by
      revert hb
      show b ∈ (if BATCH_SIZE ≤ (addTitles st.seen st.batch i.titles).2.length
        then [(addTitles st.seen st.batch i.titles).2] else []) → _
      split
      · intro h; simpa using h
      · intro h; simp at h
    exact addTitles_batch_new _ _ _ x (hbe ▸ hx)
  · intro x hx
    have hxg : x ∈ (addTitles st.seen st.batch i.titles).2 := by
      revert hx
      show x ∈ (if BATCH_SIZE ≤ (addTitles st.seen st.batch i.titles).2.length
        then ([] : List String) else (addTitles st.seen st.batch i.titles).2) → _
      split
      · intro h; simp at h
      · intro h; exact h
    exact addTitles_batch_new _ _ _ x hxg

/-- Queued records are never dropped by the loop: each ends up flushed or
still queued. -/
theorem runScroll_batch_conserve (tr : List StepInput) :
    ∀ (st : ScrollState), ∀ x ∈ st.batch,
      x ∈ ((runScroll st tr).2).flatten ∨ x ∈ (runScroll st tr).1.batch := by
  induction tr with
  | nil => intro st x hx; exact Or.inr (by simpa [runScroll] using hx)
  | cons i is ih =>
    intro st x hx
    rw [runScroll]
    split
    · exact Or.inr hx
    · rcases scrollStep_batch_conserve st i x hx with h | h
      · exact Or.inl (by
          rw [List.flatten_append]
          exact List.mem_append.2 (Or.inl h))
      · rcases ih _ x h with h2 | h2
        · exact Or.inl (by
            rw [List.flatten_append]
            exact List.mem_append.2 (Or.inr h2))
        · exact Or.inr h2

/-- If every record of `S` is already in the seen set and none is queued,
then no batch the loop flushes, and no batch it leaves queued, contains a
record of `S`. -/
theorem runScroll_fresh (tr : List StepInput) :
    ∀ (st : ScrollState) (S : List String),
      (∀ x ∈ S, x ∈ st.seen) → (∀ x ∈ st.batch, x ∉ S) →
      (∀ b ∈ (runScroll st tr).2, ∀ x ∈ b, x ∉ S) ∧
      (∀ x ∈ (runScroll st tr).1.batch, x ∉ S) := by
  induction tr with
  | nil =>
    intro st S _ hbat
    exact ⟨by simp [runScroll], by simpa [runScroll] using hbat⟩
  | cons i is ih =>
    intro st S hseen hbat
    rw [runScroll]
    split
    · exact ⟨by simp, hbat⟩
    · have hseen' : ∀ x ∈ S, x ∈ (scrollStep st i).state.seen := by
        intro x hx
        rw [scrollStep_seen]
        exact addTitles_seen_mono _ _ _ x (hseen x hx)
      have hbat' : ∀ x ∈ (scrollStep st i).state.batch, x ∉ S := by
        intro x hx
        rcases (scrollStep_batch_src st i).2 x hx with h | h
        · exact hbat x h
        · exact fun hxS => h (hseen x hxS)
      have hih := ih (scrollStep st i).state S hseen' hbat'
      refine ⟨?_, hih.2⟩
      intro b hb x hxb
      rcases List.mem_append.1 hb with hb | hb
      · rcases (scrollStep_batch_src st i).1 b hb x hxb with h | h
        · exact hbat x h
        · exact fun hxS => h (hseen x hxS)
      · exact hih.1 b hb x hxb

/-! ### Counter invariants for exhaustion -/

theorem scrollStep_nndc_le (st : ScrollState) (i : StepInput) :
    (scrollStep st i).state.nndc ≤ st.nndc + 1 := by
  rw [scrollStep_nndc]
  split_ifs <;> omega

theorem scrollStep_csh_le (st : ScrollState) (i : StepInput) :
    (scrollStep st i).state.csh ≤ st.csh + 1 := by
  rw [scrollStep_csh]
  split_ifs <;> omega

/-- Invariant coupling the no-new-data counter to the consecutive-same-
height counter: the former is positive only when it is at least two below
the latter (a `no_new_data_count` increment needs
`consecutive_same_height >= 3`). -/
def stallInv (st : ScrollState) : Prop := st.nndc = 0 ∨ st.nndc + 2 ≤ st.csh

theorem scrollStep_stallInv (st : ScrollState) (i : StepInput) :
    stallInv st → stallInv (scrollStep st i).state := by
  intro h
  unfold stallInv at h ⊢
  rw [scrollStep_nndc, scrollStep_csh]
  simp only [SAME_HEIGHT_LIMIT]
  split_ifs with h1 h2 <;> omega

/-- Reaching the no-new-data ceiling from a state takes at least
`SAME_HEIGHT_LIMIT + NO_NEW_DATA_LIMIT - 1 - csh` further loop iterations
(up to what the starting counters already contribute). -/
theorem runScroll_exhaust_lower (tr : List StepInput) :
    ∀ st : ScrollState, stallInv st →
      NO_NEW_DATA_LIMIT ≤ (runScroll st tr).1.nndc →
      NO_NEW_DATA_LIMIT ≤ st.nndc ∨
        SAME_HEIGHT_LIMIT + NO_NEW_DATA_LIMIT - 1 ≤ tr.length + st.csh := by
  induction tr with
  | nil =>
    intro st _ h5
    exact Or.inl (by simpa [runScroll] using h5)
  | cons i is ih =>
    intro st hinv h5
    rw [runScroll] at h5
    split at h5
    · exact Or.inl (by assumption)
    · rename_i hguard
      rcases ih _ (scrollStep_stallInv st i hinv) h5 with h | h
      · right
        have hle := scrollStep_nndc_le st i
        have hinv' := scrollStep_stallInv st i hinv
        have hcsh := scrollStep_csh_le st i
        unfold stallInv at hinv'
        simp only [NO_NEW_DATA_LIMIT, SAME_HEIGHT_LIMIT] at *
        simp only [List.length_cons]
        omega
      · right
        have hcsh := scrollStep_csh_le st i
        simp only [NO_NEW_DATA_LIMIT, SAME_HEIGHT_LIMIT] at *
        simp only [List.length_cons]
        omega

theorem finishJob_flushes (st : ScrollState) (minExp : Nat) :
    (finishJob st minExp).1 = if st.batch ≠ [] then [st.batch] else [] := by
  unfold finishJob
  split <;> (split <;> rfl)

/-- C2: the loop leaves via the no-new-data ceiling only: per step the
counter grows by at most one, and it grows only on a step whose observed
extent equals the previous one while the consecutive-same-height counter has
reached 3 and the step found no new record; from a fresh start the ceiling
of 5 cannot be reached in fewer than 3 + 5 - 1 = 7 iterations (so never on a
single stall); and a session yielding zero new records and constant extent
from the first step reaches it in exactly 7 iterations. -/
theorem C2_exhausted_only_after_stall_ceiling :
    (∀ (st : ScrollState) (i : StepInput),
      (scrollStep st i).state.nndc ≤ st.nndc + 1 ∧
      (scrollStep st i).state.csh =
        (if i.newHeight = st.lastHeight then st.csh + 1 else 0) ∧
      (st.nndc < (scrollStep st i).state.nndc →
        i.newHeight = st.lastHeight ∧
        SAME_HEIGHT_LIMIT ≤ (scrollStep st i).state.csh ∧
        ((scrollStep st i).state.seen).length = st.seen.length)) ∧
    (∀ (resume : List String) (h0 : Nat) (tr : List StepInput),
      NO_NEW_DATA_LIMIT ≤ (runScroll (initState resume h0) tr).1.nndc →
      SAME_HEIGHT_LIMIT + NO_NEW_DATA_LIMIT - 1 ≤ tr.length) ∧
    ((runScroll (initState [] 100)
        (List.replicate (SAME_HEIGHT_LIMIT + NO_NEW_DATA_LIMIT - 1)
          ⟨[], 100⟩)).1.nndc = NO_NEW_DATA_LIMIT ∧
      ∀ k < SAME_HEIGHT_LIMIT + NO_NEW_DATA_LIMIT - 1,
        (runScroll (initState [] 100)
          (List.replicate k ⟨[], 100⟩)).1.nndc < NO_NEW_DATA_LIMIT) := by
  refine ⟨?_, ?_, by decide⟩
  · intro st i
    refine ⟨scrollStep_nndc_le st i, scrollStep_csh st i, ?_⟩
    intro hlt
    rw [scrollStep_nndc] at hlt
    rw [scrollStep_csh, scrollStep_seen]
    by_cases h1 : i.newHeight = st.lastHeight
    · rw [if_pos h1] at hlt ⊢
      by_cases h2 : SAME_HEIGHT_LIMIT ≤ st.csh + 1 ∧
          ((addTitles st.seen st.batch i.titles).1).length = st.seen.length
      · exact ⟨h1, by simp only [SAME_HEIGHT_LIMIT] at h2 ⊢; omega, h2.2⟩
      · rw [if_neg h2] at hlt; omega
    · rw [if_neg h1] at hlt; omega
  · intro resume h0 tr h5
    rcases runScroll_exhaust_lower tr (initState resume h0) (Or.inl rfl) h5 with h | h
    · simp only [initState, NO_NEW_DATA_LIMIT] at h; omega
    · simpa [initState] using h

/-- Witness for C2: the all-stall trace of length 7 does reach the ceiling,
discharging the exhaustion hypothesis of the lower-bound part. -/
theorem C2_exhausted_only_after_stall_ceiling_witness :
    SAME_HEIGHT_LIMIT + NO_NEW_DATA_LIMIT - 1 ≤
      (List.replicate 7 (⟨[], 100⟩ : StepInput)).length :=
  C2_exhausted_only_after_stall_ceiling.2.1 [] 100
    (List.replicate 7 ⟨[], 100⟩) (by decide)

/-- C3: starting a job from a checkpoint carrying previously seen keys,
those keys stay in the seen set for the whole run, no flushed batch and no
queued batch ever contains one of them (the seen-set membership check guards
every append), the final seen set is duplicate-free, and its size is at
least the number of distinct checkpointed keys (so the seen count never
decreases across resumes). -/
theorem C3_seen_keys_never_rebatched :
    ∀ (resume : List String) (h0 : Nat) (tr : List StepInput),
      (∀ x ∈ resume, x ∈ (runScroll (initState resume h0) tr).1.seen) ∧
      (∀ b ∈ (runScroll (initState resume h0) tr).2, ∀ x ∈ b, x ∉ resume) ∧
      (∀ x ∈ (runScroll (initState resume h0) tr).1.batch, x ∉ resume) ∧
      resume.dedup.length ≤ ((runScroll (initState resume h0) tr).1.seen).length ∧
      ((runScroll (initState resume h0) tr).1.seen).Nodup := by
  intro resume h0 tr
  have hsub : ∀ x ∈ resume, x ∈ (initState resume h0).seen := by
    intro x hx
    exact List.mem_dedup.2 hx
  have hfresh := runScroll_fresh tr (initState resume h0) resume hsub
    (by simp [initState])
  refine ⟨fun x hx => runScroll_seen_mono tr _ x (hsub x hx), hfresh.1, hfresh.2,
    ?_, runScroll_seen_nodup tr (initState resume h0) (List.nodup_dedup resume)⟩
  have hlen := runScroll_seen_len tr (initState resume h0)
  simpa [initState] using hlen

/-- Witness for C3: a checkpointed key survives a step and the new title is
batched while the old one is not. -/
theorem C3_seen_keys_never_rebatched_witness :
    ("A") ∈ (runScroll (initState [("A")] 5) [⟨[("B")], 5⟩]).1.seen ∧
    (∀ x ∈ (runScroll (initState [("A")] 5) [⟨[("B")], 5⟩]).1.batch,
      x ∉ [("A")]) :=
  ⟨(C3_seen_keys_never_rebatched [("A")] 5 [⟨[("B")], 5⟩]).1 ("A") (by decide),
    (C3_seen_keys_never_rebatched [("A")] 5 [⟨[("B")], 5⟩]).2.2.1⟩

/-- C5: once the loop has exited exhausted (the no-new-data counter at its
ceiling), the remaining batch, if non-empty, is flushed before the outcome
is decided; the outcome is the explicit insufficient-records exception,
carrying the seen count, exactly when that count is below the job's
threshold, and otherwise the job succeeds returning the seen count; the
insufficient outcome is distinct from both success and session faults. -/
theorem C5_exhaustion_epilogue :
    ∀ (st : ScrollState) (tr : List StepInput) (minExp : Nat),
      NO_NEW_DATA_LIMIT ≤ (runScroll st tr).1.nndc →
      (attemptFlushes st tr minExp =
        (runScroll st tr).2 ++
          (if (runScroll st tr).1.batch ≠ [] then [(runScroll st tr).1.batch]
            else [])) ∧
      (((runScroll st tr).1.seen).length < minExp →
        attemptOutcome st tr minExp =
          .insufficient ((runScroll st tr).1.seen).length) ∧
      (minExp ≤ ((runScroll st tr).1.seen).length →
        attemptOutcome st tr minExp =
          .success ((runScroll st tr).1.seen).length) ∧
      (∀ a b : Nat, JobOutcome.insufficient a ≠ JobOutcome.success b ∧
        JobOutcome.insufficient a ≠ JobOutcome.sessionFault) := by
  intro st tr minExp _
  refine ⟨?_, ?_, ?_, by intro a b; exact ⟨by simp, by simp⟩⟩
  · rw [attemptFlushes, finishJob_flushes]
  · intro hlt
    rw [attemptOutcome, finishJob]
    simp only [if_pos hlt]
  · intro hge
    rw [attemptOutcome, finishJob]
    simp only [if_neg (Nat.not_lt.2 hge)]

/-- Witness for C5: the all-stall session exhausts with zero records, below
the default threshold, and raises the insufficient-records outcome. -/
theorem C5_exhaustion_epilogue_witness :
    attemptOutcome (initState [] 100) (List.replicate 7 ⟨[], 100⟩) 500 =
      JobOutcome.insufficient 0 :=
  (C5_exhaustion_epilogue (initState [] 100) (List.replicate 7 ⟨[], 100⟩) 500
    (by decide)).2.1 (by decide)

/-- C6: an in-process job retry loses no collected data: the state passed to
the retry (`seen_titles`, `batch_data`, `consecutive_same_height` live
outside the retry loop) keeps the seen set and the queued batch of the
faulted pass exactly; every key seen before the faulted pass is still seen
at the fault point; every queued record was flushed or is still queued at
the fault point; and on a later pass that completes, every record queued at
its start appears in that pass's flushes. -/
theorem C6_retry_preserves_collected_data :
    ∀ (st : ScrollState) (tr : List StepInput) (k : Nat) (h0 : Nat) (minExp : Nat),
      ((retryInit (runScroll st (tr.take k)).1 h0).seen =
        (runScroll st (tr.take k)).1.seen) ∧
      ((retryInit (runScroll st (tr.take k)).1 h0).batch =
        (runScroll st (tr.take k)).1.batch) ∧
      (∀ x ∈ st.seen, x ∈ (runScroll st (tr.take k)).1.seen) ∧
      (∀ x ∈ st.batch, x ∈ ((runScroll st (tr.take k)).2).flatten ∨
        x ∈ (runScroll st (tr.take k)).1.batch) ∧
      (∀ tr2 : List StepInput,
        ∀ x ∈ (retryInit (runScroll st (tr.take k)).1 h0).batch,
        x ∈ (attemptFlushes (retryInit (runScroll st (tr.take k)).1 h0) tr2
          minExp).flatten) := by
  intro st tr k h0 minExp
  refine ⟨rfl, rfl, fun x hx => runScroll_seen_mono _ _ x hx,
    fun x hx => runScroll_batch_conserve _ _ x hx, ?_⟩
  intro tr2 x hx
  rw [attemptFlushes, finishJob_flushes, List.flatten_append]
  rcases runScroll_batch_conserve tr2 (retryInit (runScroll st (tr.take k)).1 h0)
    x hx with h | h
  · exact List.mem_append.2 (Or.inl h)
  · refine List.mem_append.2 (Or.inr ?_)
    rw [if_pos (List.ne_nil_of_mem h)]
    simpa using h

/-- Witness for C6: a record queued before a fault is flushed by the
following completed pass. -/
theorem C6_retry_preserves_collected_data_witness :
    ("a") ∈ (attemptFlushes
      (retryInit (runScroll ⟨[], [("a")], 0, 0, 0⟩ (List.take 0 [])).1 0)
      [] 5).flatten :=
  (C6_retry_preserves_collected_data ⟨[], [("a")], 0, 0, 0⟩ [] 0 0 5).2.2.2.2
    [] ("a") (by decide)

/-- C7: `load_progress` never raises: a missing file and an unreadable or
corrupt file both yield the empty checkpoint
`{'completed_urls': [], 'partial_data': {}}` (the unreadable case after
logging a warning), and a readable file yields its parsed contents. -/
theorem C7_load_progress_never_raises :
    load_progress ProgressFile.missing = emptyProgress ∧
    load_progress ProgressFile.unreadable = emptyProgress ∧
    emptyProgress = { completed_urls := [], inprogress := none } ∧
    ∀ p : Progress, load_progress (ProgressFile.stored p) = p :=
  ⟨rfl, rfl, rfl, fun _ => rfl⟩

set_option maxRecDepth 20000 in
/-- C8 as stated is false: the refresh at `no_new_data_count == 3` fires
regardless of whether the job is still short of its completion target.
Counterexample: a state holding 500 seen titles (the default threshold for
a city such as Gurgaon) still refreshes when the counter reaches 3. -/
theorem C8_counterexample :
    ¬ (∀ (st : ScrollState) (i : StepInput) (city : String),
        (scrollStep st i).refreshed = true →
        ((scrollStep st i).state.seen).length <
          get_min_localities_threshold city) := by
  intro h
  have hx := h ⟨List.replicate 500 ("x"), [], 2, 2, 7⟩ ⟨[], 7⟩ ("Gurgaon")
    (by decide)
  exact absurd hx (by decide)

/-- C8 amended: the controller performs the refreshing step exactly in those
iterations whose updated no-new-data counter equals 3 (`REFRESH_TRIGGER`),
irrespective of the completion target; the refresh itself changes no loop
state (the returned state is computed before the trigger is consulted). -/
theorem C8_amended_refresh_iff_counter :
    ∀ (st : ScrollState) (i : StepInput),
      (scrollStep st i).refreshed = true ↔
        (scrollStep st i).state.nndc = REFRESH_TRIGGER := by
  intro st i
  exact decide_eq_true_iff

/-- Witness for C8 amended: a step whose counter hits 3 refreshes. -/
theorem C8_amended_refresh_iff_counter_witness :
    (scrollStep ⟨[], [], 2, 2, 7⟩ ⟨[], 7⟩).refreshed = true :=
  (C8_amended_refresh_iff_counter ⟨[], [], 2, 2, 7⟩ ⟨[], 7⟩).mpr (by decide)

/-! # Lemmas about the sequential runner -/

/-- Invariant preserved by processing one url: urls of `S` stay in the
completed set, and executed urls avoid `S`. -/
theorem processUrl_skipInv (beh : String → JobBeh) (S : List String)
    (st : SeqState) (u : String)
    (h1 : ∀ x ∈ S, x ∈ st.completed) (h2 : ∀ x ∈ st.executed, x ∉ S) :
    (∀ x ∈ S, x ∈ (processUrl beh st u).completed) ∧
    (∀ x ∈ (processUrl beh st u).executed, x ∉ S) := by
  rw [processUrl]
  split
  · exact ⟨h1, h2⟩
  · rename_i hnm
    split
    · refine ⟨fun x hx => List.mem_append.2 (Or.inl (h1 x hx)), ?_⟩
      intro x hx
      rcases List.mem_append.1 hx with hx | hx
      · exact h2 x hx
      · rw [List.mem_singleton] at hx
        subst hx
        exact fun hS => hnm (h1 x hS)
    · refine ⟨h1, ?_⟩
      intro x hx
      rcases List.mem_append.1 hx with hx | hx
      · exact h2 x hx
      · rw [List.mem_singleton] at hx
        subst hx
        exact fun hS => hnm (h1 x hS)

theorem foldl_skipInv (beh : String → JobBeh) (S : List String) :
    ∀ (urls : List String) (st : SeqState),
      (∀ x ∈ S, x ∈ st.completed) → (∀ x ∈ st.executed, x ∉ S) →
      (∀ x ∈ S, x ∈ (urls.foldl (processUrl beh) st).completed) ∧
      (∀ x ∈ (urls.foldl (processUrl beh) st).executed, x ∉ S) := by
  intro urls
  induction urls with
  | nil => intro st h1 h2; exact ⟨h1, h2⟩
  | cons u rest ih =>
    intro st h1 h2
    have hstep := processUrl_skipInv beh S st u h1 h2
    exact ih _ hstep.1 hstep.2

/-- C9: a url listed in the loaded checkpoint's `completed_urls` is skipped
entirely by the sequential runner: `scrape_locality` is never invoked for
it, so no browser session is acquired and no extraction is performed for
that url, whatever the other jobs do. -/
theorem C9_completed_urls_skipped_entirely :
    ∀ (urls : List String) (beh : String → JobBeh) (initial : Progress),
      ∀ u ∈ initial.completed_urls,
        u ∉ (runSequential urls beh initial).executed := by
  intro urls beh initial u hu hexec
  have hinv := foldl_skipInv beh initial.completed_urls urls
    { completed := initial.completed_urls.dedup, executed := [], saves := [],
      failed := [] }
    (fun x hx => List.mem_dedup.2 hx) (by simp)
  exact hinv.2 u hexec hu

/-- Witness for C9: a completed url is not executed again. -/
theorem C9_completed_urls_skipped_entirely_witness :
    ("u1") ∉ (runSequential [("u1")] (fun _ => ⟨0, [], true⟩)
      ⟨[("u1")], none⟩).executed :=
  C9_completed_urls_skipped_entirely [("u1")] (fun _ => ⟨0, [], true⟩)
    ⟨[("u1")], none⟩ ("u1") (by decide)

/-- The `completed_urls` values of all checkpoint saves, in write order. -/
def savedCompletedLog (s : SeqState) : List (List String) :=
  s.saves.map fun sv => sv.2.completed_urls

/-- The `completed_urls` values of the per-job completion saves only. -/
def completionSaves (s : SeqState) : List (List String) :=
  (s.saves.filter fun sv => sv.1).map fun sv => sv.2.completed_urls

/-- A run of two succeeding jobs where the second flushes one mid-job
batch: the mid-job call `save_progress([], url, seen_titles)` persists an
empty `completed_urls`. -/
def C4beh : String → JobBeh :=
  fun u => if u = ("u1") then ⟨0, [], true⟩ else ⟨1, [("t")], true⟩

/-- C4 as stated is false: not every checkpoint save writes a
`completed_urls` superset of the previously persisted one.  After job u1
completes (persisting `['u1']`), u2's first batch flush persists
`completed_urls = []`. -/
theorem C4_counterexample :
    ¬ List.Chain' (fun a b => ∀ x ∈ a, x ∈ b)
      (Progress.completed_urls emptyProgress ::
        savedCompletedLog (runSequential [("u1"), ("u2")] C4beh emptyProgress)) := by
  intro h
  have hlog : savedCompletedLog
      (runSequential [("u1"), ("u2")] C4beh emptyProgress) =
      [[("u1")], [], [("u1"), ("u2")]] := by decide
  rw [hlog] at h
  have h2 := (List.chain'_cons.1 (List.chain'_cons.1 h).2).1
  have h3 := h2 ("u1") (List.mem_singleton.2 rfl)
  simp at h3

/-- Invariant preserved by one url step: every already-persisted completion
save is a subset of the in-memory completed set, the completion saves form a
superset chain, and every mid-job save persisted an empty list. -/
theorem processUrl_saveInv (beh : String → JobBeh) (c0 : List String)
    (st : SeqState) (u : String)
    (h1 : ∀ v ∈ c0 :: completionSaves st, ∀ x ∈ v, x ∈ st.completed)
    (h2 : List.Chain' (fun a b => ∀ x ∈ a, x ∈ b) (c0 :: completionSaves st))
    (h3 : ∀ sv ∈ st.saves, sv.1 = false → sv.2.completed_urls = []) :
    (∀ v ∈ c0 :: completionSaves (processUrl beh st u), ∀ x ∈ v,
      x ∈ (processUrl beh st u).completed) ∧
    List.Chain' (fun a b => ∀ x ∈ a, x ∈ b)
      (c0 :: completionSaves (processUrl beh st u)) ∧
    (∀ sv ∈ (processUrl beh st u).saves, sv.1 = false →
      sv.2.completed_urls = []) := by
  rw [processUrl]
  split
  · exact ⟨h1, h2, h3⟩
  · split
    · have hcs : completionSaves
          { completed := st.completed ++ [u]
            executed := st.executed ++ [u]
            saves := st.saves ++
              List.replicate (beh u).flushes
                (false, save_progress [] (some u) (beh u).seenAtSave) ++
              [(true, save_progress (st.completed ++ [u]) none [])]
            failed := st.failed } =
          completionSaves st ++ [st.completed ++ [u]] := by
        simp [completionSaves, List.filter_append, List.filter_replicate,
          save_progress]
      refine ⟨?_, ?_, ?_⟩
      · intro v hv x hxv
        rw [hcs] at hv
        rcases List.mem_cons.1 hv with rfl | hv
        · exact List.mem_append.2 (Or.inl (h1 v (List.mem_cons_self _ _) x hxv))
        · rcases List.mem_append.1 hv with hv | hv
          · exact List.mem_append.2
              (Or.inl (h1 v (List.mem_cons_of_mem _ hv) x hxv))
          · rw [List.mem_singleton] at hv
            exact hv ▸ hxv
      · rw [hcs, ← List.cons_append]
        refine List.chain'_append.2 ⟨h2, List.chain'_singleton _, ?_⟩
        intro x hx y hy
        simp only [List.head?_cons, Option.mem_def, Option.some.injEq] at hy
        intro z hz
        have hxmem : x ∈ c0 :: completionSaves st := by
          rcases List.mem_cons.1 (List.mem_of_mem_getLast? hx)
            with hmem | hmem
          · exact hmem ▸ List.mem_cons_self _ _
          · exact List.mem_cons_of_mem _ hmem
        have := h1 x hxmem z hz
        exact hy ▸ List.mem_append.2 (Or.inl this)
      · intro sv hsv hfalse
        rcases List.mem_append.1 hsv with hsv | hsv
        · rcases List.mem_append.1 hsv with hsv | hsv
          · exact h3 sv hsv hfalse
          · rw [List.eq_of_mem_replicate hsv]; rfl
        · rw [List.mem_singleton] at hsv
          rw [hsv] at hfalse
          cases hfalse
    · have hcs : completionSaves
          { completed := st.completed
            executed := st.executed ++ [u]
            saves := st.saves ++
              List.replicate (beh u).flushes
                (false, save_progress [] (some u) (beh u).seenAtSave)
            failed := st.failed ++ [u] } = completionSaves st := by
        simp [completionSaves, List.filter_append, List.filter_replicate]
      refine ⟨?_, by rw [hcs]; exact h2, ?_⟩
      · intro v hv x hxv
        rw [hcs] at hv
        exact h1 v hv x hxv
      · intro sv hsv hfalse
        rcases List.mem_append.1 hsv with hsv | hsv
        · exact h3 sv hsv hfalse
        · rw [List.eq_of_mem_replicate hsv]; rfl

theorem foldl_saveInv (beh : String → JobBeh) (c0 : List String) :
    ∀ (urls : List String) (st : SeqState),
      (∀ v ∈ c0 :: completionSaves st, ∀ x ∈ v, x ∈ st.completed) →
      List.Chain' (fun a b => ∀ x ∈ a, x ∈ b) (c0 :: completionSaves st) →
      (∀ sv ∈ st.saves, sv.1 = false → sv.2.completed_urls = []) →
      (∀ v ∈ c0 :: completionSaves (urls.foldl (processUrl beh) st), ∀ x ∈ v,
        x ∈ (urls.foldl (processUrl beh) st).completed) ∧
      List.Chain' (fun a b => ∀ x ∈ a, x ∈ b)
        (c0 :: completionSaves (urls.foldl (processUrl beh) st)) ∧
      (∀ sv ∈ (urls.foldl (processUrl beh) st).saves, sv.1 = false →
        sv.2.completed_urls = []) := by
  intro urls
  induction urls with
  | nil => intro st h1 h2 h3; exact ⟨h1, h2, h3⟩
  | cons u rest ih =>
    intro st h1 h2 h3
    have hstep := processUrl_saveInv beh c0 st u h1 h2 h3
    exact ih _ hstep.1 hstep.2.1 hstep.2.2

/-- C4 amended: within one run the in-memory completed set only grows and a
url in the loaded completed list (or completed during the run) is never
reprocessed, and the per-job completion saves write supersets of each other
and of the loaded list; however, the mid-job batch saves persist an empty
`completed_urls` (so not every save is a superset of the previously
persisted value — see the counterexample). -/
theorem C4_amended_completion_saves_grow :
    ∀ (urls : List String) (beh : String → JobBeh) (initial : Progress),
      (∀ u ∈ initial.completed_urls,
        u ∈ (runSequential urls beh initial).completed) ∧
      List.Chain' (fun a b => ∀ x ∈ a, x ∈ b)
        (initial.completed_urls.dedup ::
          completionSaves (runSequential urls beh initial)) ∧
      (∀ sv ∈ (runSequential urls beh initial).saves, sv.1 = false →
        sv.2.completed_urls = []) ∧
      (∀ u ∈ initial.completed_urls,
        u ∉ (runSequential urls beh initial).executed) := by
  intro urls beh initial
  have hbase1 : ∀ v ∈ initial.completed_urls.dedup ::
      completionSaves (SeqState.mk initial.completed_urls.dedup [] [] []),
      ∀ x ∈ v, x ∈ (SeqState.mk initial.completed_urls.dedup [] [] []).completed := by
    intro v hv x hxv
    rcases List.mem_cons.1 hv with rfl | hv
    · exact hxv
    · simp [completionSaves] at hv
  have hmain := foldl_saveInv beh initial.completed_urls.dedup urls
    (SeqState.mk initial.completed_urls.dedup [] [] []) hbase1
    (by simp [completionSaves]) (by simp)
  have hskip := foldl_skipInv beh initial.completed_urls urls
    (SeqState.mk initial.completed_urls.dedup [] [] [])
    (fun x hx => List.mem_dedup.2 hx) (by simp)
  refine ⟨?_, hmain.2.1, hmain.2.2, fun u hu hexec => hskip.2 u hexec hu⟩
  intro u hu
  exact hmain.1 initial.completed_urls.dedup (List.mem_cons_self _ _) u
    (List.mem_dedup.2 hu)

/-- Witness for C4's amended statement. -/
theorem C4_amended_completion_saves_grow_witness :
    ("u1") ∈ (runSequential [("u2")] C4beh ⟨[("u1")], none⟩).completed ∧
    ("u1") ∉ (runSequential [("u2")] C4beh ⟨[("u1")], none⟩).executed :=
  ⟨(C4_amended_completion_saves_grow [("u2")] C4beh ⟨[("u1")], none⟩).1
      ("u1") (by decide),
    (C4_amended_completion_saves_grow [("u2")] C4beh ⟨[("u1")], none⟩).2.2.2
      ("u1") (by decide)⟩

/-! # Lemmas about the page-load retry loop -/

theorem pageLoadGo_rc_mono :
    ∀ (fuel rc navs : Nat) (outs : Nat → Bool),
      rc ≤ (pageLoadGo fuel rc outs navs).1 := by
  intro fuel
  induction fuel with
  | zero => intro rc navs outs; exact le_refl _
  | succ fuel ih =>
    intro rc navs outs
    rw [pageLoadGo]
    split_ifs
    · exact le_refl _
    · exact le_refl _
    · exact Nat.le_succ _
    · exact le_trans (Nat.le_succ _) (ih (rc + 1) (navs + 1) outs)

theorem pageLoadGo_fail_rc :
    ∀ (fuel rc navs : Nat) (outs : Nat → Bool),
      (pageLoadGo fuel rc outs navs).2.2 = false →
      (pageLoadGo fuel rc outs navs).1 = MAX_RETRIES := by
  intro fuel
  induction fuel with
  | zero => intro rc navs outs h; cases h
  | succ fuel ih =>
    intro rc navs outs h
    rw [pageLoadGo] at h ⊢
    split_ifs at h ⊢ with h1 h2 h3
    · exact h3
    · exact ih (rc + 1) (navs + 1) outs h

/-- A page-load loop entered with the retry counter already at
`MAX_RETRIES` executes its body zero times: no navigation, no wait, and it
falls through as if loaded. -/
theorem pageLoadLoop_skip (rc : Nat) (outs : Nat → Bool)
    (h : MAX_RETRIES ≤ rc) : pageLoadLoop rc outs = (rc, 0, true) := by
  rw [pageLoadLoop, Nat.sub_eq_zero_of_le h, pageLoadGo]

theorem runAttempts_zero_navs :
    ∀ (specs : List AttemptSpec) (rc : Nat), MAX_RETRIES ≤ rc →
      ∀ n ∈ (runAttempts rc specs).1, n = 0 := by
  intro specs
  induction specs with
  | nil =>
    intro rc h n hn
    rw [runAttempts] at hn
    simp at hn
  | cons a rest ih =>
    intro rc h n hn
    rw [runAttempts, pageLoadLoop_skip rc a.loadResults h] at hn
    by_cases hf : a.scrollFaults
    · rw [if_pos (Or.inr hf)] at hn
      rcases List.mem_cons.1 hn with rfl | hn2
      · rfl
      · exact ih rc h n hn2
    · have hcond : ¬(((rc, 0, true) : Nat × Nat × Bool).2.2 = false ∨
          a.scrollFaults = true) := by simp [hf]
      rw [if_neg hcond] at hn
      rcases List.mem_singleton.1 hn with rfl
      rfl

/-- C10: `retry_count` is initialised once per `scrape_locality` call and
only ever increases; when the page-load loop leaves by raising, the counter
equals `MAX_RETRIES`; entering the loop with the counter at `MAX_RETRIES`
performs zero navigations and zero waits; hence every retry attempt after
the counter has reached `MAX_RETRIES` runs the page-load loop body zero
times, and its fresh session proceeds to the scroll-extract loop without
navigating to the job url. -/
theorem C10_retry_counter_never_reset :
    (∀ (fuel rc navs : Nat) (outs : Nat → Bool),
      rc ≤ (pageLoadGo fuel rc outs navs).1) ∧
    (∀ (fuel rc navs : Nat) (outs : Nat → Bool),
      (pageLoadGo fuel rc outs navs).2.2 = false →
      (pageLoadGo fuel rc outs navs).1 = MAX_RETRIES) ∧
    (∀ (rc : Nat) (outs : Nat → Bool), MAX_RETRIES ≤ rc →
      pageLoadLoop rc outs = (rc, 0, true)) ∧
    (∀ (specs : List AttemptSpec) (rc : Nat), MAX_RETRIES ≤ rc →
      ∀ n ∈ (runAttempts rc specs).1, n = 0) :=
  ⟨pageLoadGo_rc_mono, pageLoadGo_fail_rc, pageLoadLoop_skip,
    runAttempts_zero_navs⟩

/-- Witness for C10: with the counter at 5, the load loop does nothing and
both later attempts of a job navigate zero times. -/
theorem C10_retry_counter_never_reset_witness :
    pageLoadLoop 5 (fun _ => true) = (5, 0, true) ∧
    ∀ n ∈ (runAttempts 5
      [⟨fun _ => true, true⟩, ⟨fun _ => true, false⟩]).1, n = 0 :=
  ⟨C10_retry_counter_never_reset.2.2.1 5 (fun _ => true) (by decide),
    C10_retry_counter_never_reset.2.2.2
      [⟨fun _ => true, true⟩, ⟨fun _ => true, false⟩] 5 (by decide)⟩
